import Mathlib

/-!
# Verification of the lcov-report-action core (src/index.js)

Shallow embedding of the coverage pipeline of `src/index.js`:
the LCOV parser (`parseLcovFile`), the percentage and aggregation
functions (`calculatePercentage`, `calculateCoverage`), the pass/fail
decision of `run`, the changed-files sort comparator of
`buildChangedFilesSection`, and the comment reconciliation of
`postComment`.

Modelling conventions:
* JavaScript numbers are modelled as exact rationals (`ℚ`); the line
  counters of well-formed records are `Nat`.
* `parseInt(s, 10)` never throws in JavaScript; it returns a number or
  `NaN`.  Its result is modelled by `JsNum` (`nan` or `num n`), and
  `jsParseInt` reproduces its base-10 behaviour: skip leading
  whitespace, optional sign, longest leading digit run, `NaN` when no
  digit is found.
* `line.startsWith(p)` and `body.includes(m)` are modelled by
  character-list scans (`charsStarts`, `charsContains`).
* The `resolve`/`relative` path round-trip applied to an `SF:` path is
  external library behaviour; the parser is parametric in a
  normalisation function `norm : String → String` (identity on plain
  relative paths).
* JavaScript `Array.prototype.sort` is stable; it is modelled by
  `List.mergeSort` over the embedded comparator.
-/

namespace LcovAction

/-- Result of JavaScript `parseInt`: a number or `NaN`. -/
inductive JsNum where
  | nan : JsNum
  | num : Int → JsNum
deriving DecidableEq, Repr

/-- Numeric value of a run of decimal digit characters. -/
def digitsToNat (ds : List Char) : Nat :=
  ds.foldl (fun n c => n * 10 + (c.toNat - ('0').toNat)) 0

/-- Characters skipped by `parseInt` before the number. -/
def isJsSpace (c : Char) : Bool :=
  c = ' ' || c = '\t' || c = '\n' || c = '\r'

/-- JavaScript `parseInt(s, 10)`: skip leading whitespace, one optional
sign, then the longest leading run of decimal digits; `NaN` when that
run is empty. -/
def jsParseInt (s : String) : JsNum :=
  let cs := s.toList.dropWhile isJsSpace
  match cs with
  | '-' :: rest =>
    match rest.takeWhile Char.isDigit with
    | [] => JsNum.nan
    | ds => JsNum.num (-(digitsToNat ds : Int))
  | '+' :: rest =>
    match rest.takeWhile Char.isDigit with
    | [] => JsNum.nan
    | ds => JsNum.num (digitsToNat ds)
  | _ =>
    match cs.takeWhile Char.isDigit with
    | [] => JsNum.nan
    | ds => JsNum.num (digitsToNat ds)

/-- `charsStarts pat cs` : `cs` begins with `pat` (character lists). -/
def charsStarts : List Char → List Char → Bool
  | [], _ => true
  | _ :: _, [] => false
  | a :: as, b :: bs => decide (a = b) && charsStarts as bs

/-- `charsContains pat cs` : `pat` occurs contiguously inside `cs`. -/
def charsContains (pat : List Char) : List Char → Bool
  | [] => charsStarts pat []
  | c :: cs => charsStarts pat (c :: cs) || charsContains pat cs

/-- JavaScript `line.startsWith(pat)`. -/
def lineStarts (line pat : String) : Bool :=
  charsStarts pat.toList line.toList

/-- JavaScript `s.includes(pat)`. -/
def strIncludes (s pat : String) : Bool :=
  charsContains pat.toList s.toList

/-- A record produced by the parser: `{ file, lines: { found, hit } }`.
The counters are `JsNum` because `parseInt` can store `NaN`. -/
structure RawCov where
  file : String
  found : JsNum
  hit : JsNum
deriving DecidableEq, Repr

/-- Scanning state of `parseLcovFile`: the records pushed so far and
the optional `currentFile`. -/
structure PState where
  files : List RawCov
  current : Option RawCov
deriving DecidableEq, Repr

/-- One iteration of the `for (const line of content.split('\n'))` loop
of `parseLcovFile`.  In the source an `LF:`/`LH:`/`end_of_record` line
seen with `currentFile == null` falls through every branch of the
`else if` chain (such a line cannot match any other branch), so the
state is unchanged; the `none` arms reproduce that fall-through. -/
def lcovStep (norm : String → String) (st : PState) (line : String) : PState :=
  if lineStarts line "SF:" then
    ⟨st.files, some ⟨norm (String.drop line 3), JsNum.num 0, JsNum.num 0⟩⟩
  else if lineStarts line "LF:" then
    match st.current with
    | some c => ⟨st.files, some ⟨c.file, jsParseInt (String.drop line 3), c.hit⟩⟩
    | none => st
  else if lineStarts line "LH:" then
    match st.current with
    | some c => ⟨st.files, some ⟨c.file, c.found, jsParseInt (String.drop line 3)⟩⟩
    | none => st
  else if line = "end_of_record" then
    match st.current with
    | some c => ⟨st.files ++ [c], none⟩
    | none => st
  else st

/-- The scan of `parseLcovFile` over a list of lines. -/
def parseLcovLines (norm : String → String) (lines : List String) : PState :=
  lines.foldl (lcovStep norm) ⟨[], none⟩

/-- Helper for `jsSplitNl`: accumulates the current line (reversed). -/
def splitNlAux : List Char → List Char → List String
  | acc, [] => [String.mk acc.reverse]
  | acc, c :: cs =>
    if c = '\n' then String.mk acc.reverse :: splitNlAux [] cs
    else splitNlAux (c :: acc) cs

/-- JavaScript `content.split('\n')`: the maximal `'\n'`-free segments,
including empty ones. -/
def jsSplitNl (s : String) : List String :=
  splitNlAux [] s.toList

/-- `parseLcovFile` of the source, applied to the file contents:
split on newlines, scan, and return the pushed records. -/
def parseLcovFile (norm : String → String) (content : String) : List RawCov :=
  (parseLcovLines norm (jsSplitNl content)).files

/-- A well-formed per-file record (the data model of a parsed report
whose counters are actual non-negative integers):
`{ file, lines: { found, hit } }`. -/
structure FileCov where
  file : String
  found : Nat
  hit : Nat
deriving DecidableEq, Repr

/-- `calculatePercentage(hit, found)` of the source:
`found > 0 ? (hit / found) * 100 : 0`. -/
def calculatePercentage (hit found : Nat) : ℚ :=
  if 0 < found then ((hit : ℚ) / (found : ℚ)) * 100 else 0

/-- The aggregate produced by `calculateCoverage`:
`{ found, hit, percentage, files }`. -/
structure CovTotals where
  found : Nat
  hit : Nat
  percentage : ℚ
  files : List FileCov
deriving DecidableEq, Repr

/-- The `reduce` accumulator step of `calculateCoverage` (a triple
`(found, hit, files)`; `push` appends at the end). -/
def covAccStep (acc : Nat × Nat × List FileCov) (f : FileCov) :
    Nat × Nat × List FileCov :=
  (acc.1 + f.found, acc.2.1 + f.hit, acc.2.2 ++ [f])

/-- `calculateCoverage(coverage, changedFiles)` of the source.  The
`changedFiles` argument is `none` for the JavaScript `null` default and
`some s` for a set of path strings. -/
def calculateCoverage (coverage : List FileCov)
    (changedFiles : Option (Finset String)) : CovTotals :=
  let filtered :=
    match changedFiles with
    | some s =>
      if 0 < s.card then
        coverage.filter (fun f : FileCov => decide (f.file ∈ s))
      else coverage
    | none => coverage
  if filtered.length = 0 then ⟨0, 0, 0, []⟩
  else
    let total := filtered.foldl covAccStep (0, 0, [])
    ⟨total.1, total.2.1, calculatePercentage total.2.1 total.1, total.2.2⟩

/-- The threshold decision of `run` (src/index.js lines 30-32):
`allPassed && changedPassed`, where `changedPassed` is automatic for an
empty changed-file set.  `core.setFailed` is called exactly when this
is `false`. -/
def runPassed (coverage : List FileCov) (changedFiles : Finset String)
    (allFilesMin changedFilesMin : ℚ) : Bool :=
  let allCoverage := calculateCoverage coverage none
  let changedCoverage := calculateCoverage coverage (some changedFiles)
  let allPassed := decide (allFilesMin ≤ allCoverage.percentage)
  let changedPassed :=
    decide (changedFiles.card = 0) ||
      decide (changedFilesMin ≤ changedCoverage.percentage)
  allPassed && changedPassed

/-- The comparator of `buildChangedFilesSection` (src/index.js lines
168-176), returning the sign-carrying value of the JavaScript callback. -/
def changedCmp (a b : FileCov) : ℚ :=
  if a.found = 0 ∧ b.found = 0 then 0
  else if a.found = 0 then 1
  else if b.found = 0 then -1
  else if calculatePercentage a.hit a.found ≠ calculatePercentage b.hit b.found then
    calculatePercentage a.hit a.found - calculatePercentage b.hit b.found
  else (b.found : ℚ) - (a.found : ℚ)

/-- The non-strict order induced by `changedCmp` (a stable sort with a
comparator orders by `cmp a b <= 0`). -/
def changedLE (a b : FileCov) : Bool :=
  decide (changedCmp a b ≤ 0)

/-- `[...cov.files].sort(comparator)` of `buildChangedFilesSection`:
JavaScript `Array.prototype.sort` is stable, modelled by the stable
`List.mergeSort`. -/
def sortChangedFiles (files : List FileCov) : List FileCov :=
  files.mergeSort changedLE

/-- The ordering the changed-files table claims for an entry `a`
appearing (anywhere) before an entry `b`: zero-`found` entries only
before other zero-`found` entries, and among measurable entries lower
percentage first, with percentage ties broken by larger `found`. -/
def changedGood (a b : FileCov) : Prop :=
  (a.found = 0 → b.found = 0) ∧
  (0 < a.found → 0 < b.found →
    (calculatePercentage a.hit a.found < calculatePercentage b.hit b.found ∨
      (calculatePercentage a.hit a.found = calculatePercentage b.hit b.found ∧
        b.found ≤ a.found)))

/-- The marker `LCOV_COMMENT_MARKER` identifying the action's comment. -/
def lcovCommentMarker : String := "<!-- lcov-comment -->"

/-- `MAX_FILES_PER_PAGE`, also used as the comment-list page size. -/
def maxFilesPerPage : Nat := 100

/-- A comment of the store: `{ id, body }`. -/
structure IssueComment where
  id : Nat
  body : String
deriving DecidableEq, Repr

/-- `c.body?.includes(LCOV_COMMENT_MARKER)` of `postComment`. -/
def hasMarker (c : IssueComment) : Bool :=
  strIncludes c.body lcovCommentMarker

/-- Modelled platform behaviour: `createComment` assigns the new
comment an identifier distinct from every existing one (GitHub ids are
unique); here one larger than all ids in the store. -/
def freshId (comments : List IssueComment) : Nat :=
  (comments.map IssueComment.id).foldr max 0 + 1

/-- `postComment(token, comment)` of the source acting on the comment
store: list the first page, find the first marker-bearing comment,
update it in place if found, else create a new comment at the end. -/
def postComment (comments : List IssueComment) (body : String) :
    List IssueComment :=
  match (comments.take maxFilesPerPage).find? hasMarker with
  | some existing =>
    comments.map fun c =>
      if c.id = existing.id then ⟨c.id, body⟩ else c
  | none => comments ++ [⟨freshId comments, body⟩]

/-! ## Aggregation lemmas -/

/-- Unfolding the `reduce` of `calculateCoverage`: the accumulator adds
the sums and appends the scanned entries. -/
theorem covAccStep_foldl (l : List FileCov) (a b : Nat) (fs : List FileCov) :
    l.foldl covAccStep (a, b, fs) =
      (a + (l.map FileCov.found).sum, b + (l.map FileCov.hit).sum, fs ++ l) := by
  induction l generalizing a b fs with
  | nil => simp
  | cons f t ih =>
    simp only [List.foldl_cons, covAccStep, ih, List.map_cons, List.sum_cons]
    refine congrArg₂ _ (by omega) (congrArg₂ _ (by omega) ?_)
    simp

/-- When no member of a non-empty filter matches, the retained list of
`calculateCoverage` is empty and the defined empty aggregate is
returned. -/
theorem calculateCoverage_no_match (coverage : List FileCov) (s : Finset String)
    (hcard : 0 < s.card) (h : ∀ f ∈ coverage, f.file ∉ s) :
    calculateCoverage coverage (some s) = ⟨0, 0, 0, []⟩ := by
  unfold calculateCoverage
  have hfil : coverage.filter (fun f : FileCov => decide (f.file ∈ s)) = [] :=
    List.filter_eq_nil_iff.mpr (by simpa using h)
  simp [hcard, hfil]

/-! ## Claims about aggregation and the pass/fail decision -/

/-- C4: aggregation without a filter returns `linesFound` equal to the
sum of `linesFound` over all entries of the report, `linesHit` equal to
the sum of `linesHit` over all entries, and a `files` sequence equal to
the entries in their original (unsorted) order. -/
theorem aggregate_unfiltered_sums (coverage : List FileCov) :
    (calculateCoverage coverage none).found = (coverage.map FileCov.found).sum ∧
    (calculateCoverage coverage none).hit = (coverage.map FileCov.hit).sum ∧
    (calculateCoverage coverage none).files = coverage := by
  unfold calculateCoverage
  cases coverage with
  | nil => simp
  | cons f t => simp [covAccStep, covAccStep_foldl]

/-- C5: for every report and every non-empty filter set matching no
file path of the report, aggregation returns exactly the empty
aggregate `{linesFound := 0, linesHit := 0, percentage := 0, files := []}`
rather than an error. -/
theorem aggregate_empty_filter_match (coverage : List FileCov) (s : Finset String)
    (hcard : 0 < s.card) (h : ∀ f ∈ coverage, f.file ∉ s) :
    calculateCoverage coverage (some s) = ⟨0, 0, 0, []⟩ :=
  calculateCoverage_no_match coverage s hcard h

/-- Witness for C5 at a concrete report and filter. -/
theorem aggregate_empty_filter_match_witness :
    0 < ({"b"} : Finset String).card ∧
    (∀ f ∈ [(⟨"a", 10, 5⟩ : FileCov)], f.file ∉ ({"b"} : Finset String)) ∧
    calculateCoverage [(⟨"a", 10, 5⟩ : FileCov)] (some {"b"}) = ⟨0, 0, 0, []⟩ :=
  ⟨by decide, by decide,
    aggregate_empty_filter_match [⟨"a", 10, 5⟩] {"b"} (by decide) (by decide)⟩

/-- C6: the computed percentage is `0` when `linesFound = 0` regardless
of `linesHit`, and otherwise equals `100 * linesHit / linesFound`; the
guard means the division is only taken with a positive denominator. -/
theorem percentage_zero_guard (hit found : Nat) :
    (found = 0 → calculatePercentage hit found = 0) ∧
    (0 < found → calculatePercentage hit found = 100 * (hit : ℚ) / (found : ℚ)) := by
  constructor
  · intro h
    simp [calculatePercentage, h]
  · intro h
    unfold calculatePercentage
    rw [if_pos h]
    ring

/-- Witness for C6 at `found = 0` (with `hit = 7`) and at
`(hit, found) = (3, 4)`. -/
theorem percentage_zero_guard_witness :
    calculatePercentage 7 0 = 0 ∧
    0 < 4 ∧ calculatePercentage 3 4 = 100 * (3 : ℚ) / (4 : ℚ) :=
  ⟨(percentage_zero_guard 7 0).1 rfl, by decide,
    (percentage_zero_guard 3 4).2 (by decide)⟩

/-- C2: failing status is signaled if and only if the all-files
percentage is below `all-files-minimum-coverage`, or the changed-file
set is non-empty and the changed-files percentage is below
`changed-files-minimum-coverage`; an empty changed-file set makes the
changed half pass automatically. -/
theorem run_failed_iff (coverage : List FileCov) (changedFiles : Finset String)
    (allFilesMin changedFilesMin : ℚ) :
    runPassed coverage changedFiles allFilesMin changedFilesMin = false ↔
      ((calculateCoverage coverage none).percentage < allFilesMin ∨
        (changedFiles.Nonempty ∧
          (calculateCoverage coverage (some changedFiles)).percentage <
            changedFilesMin)) := by
  unfold runPassed
  simp only [Bool.and_eq_false_iff, Bool.or_eq_false_iff, decide_eq_false_iff_not,
    not_le, Finset.card_eq_zero, ← Finset.nonempty_iff_ne_empty]

/-- C10: a non-empty changed-file set matching no file of the report
gives the empty changed aggregate with percentage `0`, so the run is
marked failed whenever `changed-files-minimum-coverage > 0`. -/
theorem run_failed_unmatched_changed (coverage : List FileCov) (s : Finset String)
    (allFilesMin changedFilesMin : ℚ) (hcard : 0 < s.card)
    (h : ∀ f ∈ coverage, f.file ∉ s) (hmin : 0 < changedFilesMin) :
    calculateCoverage coverage (some s) = ⟨0, 0, 0, []⟩ ∧
    runPassed coverage s allFilesMin changedFilesMin = false := by
  have hagg := calculateCoverage_no_match coverage s hcard h
  refine ⟨hagg, ?_⟩
  unfold runPassed
  rw [hagg]
  have hne : s.card ≠ 0 := by omega
  simp [hne, not_le.mpr hmin]

/-- Witness for C10 at a concrete report, filter and thresholds. -/
theorem run_failed_unmatched_changed_witness :
    0 < ({"b"} : Finset String).card ∧
    (∀ f ∈ [(⟨"a", 10, 5⟩ : FileCov)], f.file ∉ ({"b"} : Finset String)) ∧
    (0 : ℚ) < 1 ∧
    (calculateCoverage [(⟨"a", 10, 5⟩ : FileCov)] (some {"b"}) = ⟨0, 0, 0, []⟩ ∧
      runPassed [(⟨"a", 10, 5⟩ : FileCov)] {"b"} 0 1 = false) :=
  ⟨by decide, by decide, one_pos,
    run_failed_unmatched_changed [⟨"a", 10, 5⟩] {"b"} 0 1 (by decide) (by decide) one_pos⟩

/-! ## Parser claims -/

/-- A line beginning with `LF:` or `LH:` does not begin with `SF:`
(the first characters differ). -/
theorem lineStarts_SF_eq_false (line : String)
    (h : lineStarts line "LF:" = true ∨ lineStarts line "LH:" = true) :
    lineStarts line "SF:" = false := by
  unfold lineStarts at *
  cases hcs : line.toList with
  | nil =>
    rcases h with h | h <;> rw [hcs] at h <;> simp [charsStarts] at h
  | cons c cs =>
    have hc : c = 'L' := by
      rcases h with h | h
      · rw [hcs, show "LF:".toList = ['L', 'F', ':'] from rfl] at h
        simp [charsStarts] at h
        exact h.1.symm
      · rw [hcs, show "LH:".toList = ['L', 'H', ':'] from rfl] at h
        simp [charsStarts] at h
        exact h.1.symm
    subst hc
    rw [show "SF:".toList = ['S', 'F', ':'] from rfl]
    simp [charsStarts]

/-- An `LF:`/`LH:` line scanned with no open record leaves the parser
state unchanged. -/
theorem lcovStep_stray_counter (norm : String → String) (st : PState)
    (line : String) (hcur : st.current = none)
    (h : lineStarts line "LF:" = true ∨ lineStarts line "LH:" = true) :
    lcovStep norm st line = st := by
  have hsf := lineStarts_SF_eq_false line h
  rcases h with h | h
  · simp [lcovStep, hsf, h, hcur]
  · by_cases hlf : lineStarts line "LF:" = true
    · simp [lcovStep, hsf, hlf, hcur]
    · simp [lcovStep, hsf, hlf, h, hcur]

/-- C9: an `LF:` or `LH:` line that appears while no record is open
(before any `SF:` line, or after `end_of_record` cleared the current
record) is silently ignored: the parse of the surrounding lines is
unchanged, so it contributes nothing to any record and raises no
error. -/
theorem parse_ignores_stray_counters (norm : String → String)
    (pre post : List String) (line : String)
    (h : lineStarts line "LF:" = true ∨ lineStarts line "LH:" = true)
    (hcur : (parseLcovLines norm pre).current = none) :
    parseLcovLines norm (pre ++ line :: post) = parseLcovLines norm (pre ++ post) := by
  unfold parseLcovLines at *
  rw [List.foldl_append, List.foldl_append, List.foldl_cons,
    lcovStep_stray_counter norm _ line hcur h]

/-- Witness for C9: a stray `LF:5` after a closed record changes
nothing. -/
theorem parse_ignores_stray_counters_witness :
    (lineStarts "LF:5" "LF:" = true ∨ lineStarts "LF:5" "LH:" = true) ∧
    (parseLcovLines (fun s => s) ["SF:x", "end_of_record"]).current = none ∧
    parseLcovLines (fun s => s) (["SF:x", "end_of_record"] ++ "LF:5" :: ["SF:y"]) =
      parseLcovLines (fun s => s) (["SF:x", "end_of_record"] ++ ["SF:y"]) :=
  ⟨Or.inl (by decide), by decide,
    parse_ignores_stray_counters (fun s => s) ["SF:x", "end_of_record"] ["SF:y"]
      "LF:5" (Or.inl (by decide)) (by decide)⟩

/-- C7: parsing `SF:x\nLF:10\nend_of_record` (no `LH:` line) yields the
single record `{file := x, linesFound := 10, linesHit := 0}`: a counter
whose line is absent keeps the initial value `0` set when the record
was opened. -/
theorem parse_missing_hit_defaults_zero (norm : String → String)
    (h : norm "x" = "x") :
    parseLcovFile norm "SF:x\nLF:10\nend_of_record" =
      [⟨"x", JsNum.num 10, JsNum.num 0⟩] := by
  have hstep : parseLcovFile norm "SF:x\nLF:10\nend_of_record" =
      [⟨norm "x", JsNum.num 10, JsNum.num 0⟩] := rfl
  rw [hstep, h]

/-- Witness for C7 with the identity path normalisation. -/
theorem parse_missing_hit_defaults_zero_witness :
    (fun s : String => s) "x" = "x" ∧
    parseLcovFile (fun s : String => s) "SF:x\nLF:10\nend_of_record" =
      [⟨"x", JsNum.num 10, JsNum.num 0⟩] :=
  ⟨rfl, parse_missing_hit_defaults_zero (fun s => s) rfl⟩

/-- C1 counterexample: on input whose `LF:` field is not a well-formed
integer, parsing does not abort and no error is propagated: a complete
report is returned, with the silently-defaulted `NaN` of `parseInt`
stored as the record's found-counter. -/
theorem parse_malformed_counter_returns_report :
    parseLcovFile (fun s => s) "SF:x\nLF:abc\nend_of_record" =
      [⟨"x", JsNum.nan, JsNum.num 0⟩] := by decide

/-- A line beginning with `LH:` does not begin with `LF:` (the second
characters differ). -/
theorem lineStarts_LF_eq_false_of_LH (line : String)
    (h : lineStarts line "LH:" = true) :
    lineStarts line "LF:" = false := by
  unfold lineStarts at *
  rw [show "LH:".toList = ['L', 'H', ':'] from rfl] at h
  rw [show "LF:".toList = ['L', 'F', ':'] from rfl]
  cases hcs : line.toList with
  | nil =>
    rw [hcs] at h
    simp [charsStarts] at h
  | cons c cs =>
    rw [hcs] at h
    cases cs with
    | nil => simp [charsStarts] at h
    | cons c2 cs2 =>
      simp only [charsStarts, Bool.and_eq_true, decide_eq_true_eq] at h
      obtain ⟨hc, hc2, _⟩ := h
      subst hc
      subst hc2
      simp [charsStarts]

/-- C1 amended: a malformed numeric field in an `LF:` or `LH:` line
while a record is open raises no error; `parseInt` yields `NaN`, which
is stored in the open record's corresponding counter (found for `LF:`,
hit for `LH:`), and scanning simply continues with the next line. -/
theorem parse_malformed_counter_stores_nan (norm : String → String)
    (st : PState) (c : RawCov) (line : String)
    (hcur : st.current = some c)
    (hbad : jsParseInt (String.drop line 3) = JsNum.nan) :
    (lineStarts line "LF:" = true →
      lcovStep norm st line = ⟨st.files, some ⟨c.file, JsNum.nan, c.hit⟩⟩) ∧
    (lineStarts line "LH:" = true →
      lcovStep norm st line = ⟨st.files, some ⟨c.file, c.found, JsNum.nan⟩⟩) := by
  constructor
  · intro hlf
    have hsf := lineStarts_SF_eq_false line (Or.inl hlf)
    simp [lcovStep, hsf, hlf, hcur, hbad]
  · intro hlh
    have hsf := lineStarts_SF_eq_false line (Or.inr hlh)
    have hlf := lineStarts_LF_eq_false_of_LH line hlh
    simp [lcovStep, hsf, hlf, hlh, hcur, hbad]

/-- Witness for the amended C1 at the lines `LF:abc` and `LH:abc`. -/
theorem parse_malformed_counter_stores_nan_witness :
    ((⟨[], some ⟨"x", JsNum.num 0, JsNum.num 0⟩⟩ : PState).current =
        some ⟨"x", JsNum.num 0, JsNum.num 0⟩ ∧
      jsParseInt (String.drop "LF:abc" 3) = JsNum.nan ∧
      lineStarts "LF:abc" "LF:" = true ∧
      lcovStep (fun s => s) ⟨[], some ⟨"x", JsNum.num 0, JsNum.num 0⟩⟩ "LF:abc" =
        ⟨[], some ⟨"x", JsNum.nan, JsNum.num 0⟩⟩) ∧
    (jsParseInt (String.drop "LH:abc" 3) = JsNum.nan ∧
      lineStarts "LH:abc" "LH:" = true ∧
      lcovStep (fun s => s) ⟨[], some ⟨"x", JsNum.num 0, JsNum.num 0⟩⟩ "LH:abc" =
        ⟨[], some ⟨"x", JsNum.num 0, JsNum.nan⟩⟩) :=
  ⟨⟨rfl, by decide, by decide,
    (parse_malformed_counter_stores_nan (fun s => s) _ _ "LF:abc" rfl
      (by decide)).1 (by decide)⟩,
   ⟨by decide, by decide,
    (parse_malformed_counter_stores_nan (fun s => s) _ _ "LH:abc" rfl
      (by decide)).2 (by decide)⟩⟩

/-! ## The changed-files table sort -/

/-- Characterisation of the order induced by the table comparator:
`changedCmp a b <= 0` holds exactly for tied zero-`found` pairs, for a
measurable entry against a zero-`found` entry, and for measurable pairs
ordered by (percentage ascending, `found` descending). -/
theorem changedLE_true_iff (a b : FileCov) :
    changedLE a b = true ↔
      ((a.found = 0 ∧ b.found = 0) ∨
       (0 < a.found ∧ b.found = 0) ∨
       (0 < a.found ∧ 0 < b.found ∧
         (calculatePercentage a.hit a.found < calculatePercentage b.hit b.found ∨
          (calculatePercentage a.hit a.found = calculatePercentage b.hit b.found ∧
            b.found ≤ a.found)))) := by
  unfold changedLE changedCmp
  rcases Nat.eq_zero_or_pos a.found with ha | ha <;>
    rcases Nat.eq_zero_or_pos b.found with hb | hb
  · simp [ha, hb]
  · simp [ha, hb.ne', Nat.pos_iff_ne_zero]
  · simp [ha.ne', hb, Nat.pos_iff_ne_zero]
  · rw [if_neg (fun hand => ha.ne' hand.1), if_neg ha.ne', if_neg hb.ne',
      decide_eq_true_eq]
    by_cases hpq : calculatePercentage a.hit a.found = calculatePercentage b.hit b.found
    · rw [if_neg (not_not_intro hpq), sub_nonpos]
      constructor
      · intro hle
        exact Or.inr (Or.inr ⟨ha, hb, Or.inr ⟨hpq, by exact_mod_cast hle⟩⟩)
      · rintro (⟨h1, _⟩ | ⟨_, h2⟩ | ⟨_, _, hlt | ⟨_, hba⟩⟩)
        · exact absurd h1 ha.ne'
        · exact absurd h2 hb.ne'
        · exact absurd hlt (by rw [hpq]; exact lt_irrefl _)
        · exact_mod_cast hba
    · rw [if_pos hpq, sub_nonpos]
      constructor
      · intro hle
        exact Or.inr (Or.inr ⟨ha, hb, Or.inl (lt_of_le_of_ne hle hpq)⟩)
      · rintro (⟨h1, _⟩ | ⟨_, h2⟩ | ⟨_, _, hlt | ⟨heq, _⟩⟩)
        · exact absurd h1 ha.ne'
        · exact absurd h2 hb.ne'
        · exact le_of_lt hlt
        · exact absurd heq hpq

/-- The comparator order is total, as a stable sort requires. -/
theorem changedLE_total (a b : FileCov) : changedLE a b || changedLE b a := by
  rw [Bool.or_eq_true, changedLE_true_iff, changedLE_true_iff]
  rcases Nat.eq_zero_or_pos a.found with ha | ha <;>
    rcases Nat.eq_zero_or_pos b.found with hb | hb
  · exact Or.inl (Or.inl ⟨ha, hb⟩)
  · exact Or.inr (Or.inr (Or.inl ⟨hb, ha⟩))
  · exact Or.inl (Or.inr (Or.inl ⟨ha, hb⟩))
  · rcases lt_trichotomy (calculatePercentage a.hit a.found)
      (calculatePercentage b.hit b.found) with hlt | heq | hgt
    · exact Or.inl (Or.inr (Or.inr ⟨ha, hb, Or.inl hlt⟩))
    · rcases Nat.le_total b.found a.found with hba | hab
      · exact Or.inl (Or.inr (Or.inr ⟨ha, hb, Or.inr ⟨heq, hba⟩⟩))
      · exact Or.inr (Or.inr (Or.inr ⟨hb, ha, Or.inr ⟨heq.symm, hab⟩⟩))
    · exact Or.inr (Or.inr (Or.inr ⟨hb, ha, Or.inl hgt⟩))

/-- The comparator order is transitive, as a stable sort requires. -/
theorem changedLE_trans (a b c : FileCov) :
    changedLE a b → changedLE b c → changedLE a c := by
  rw [changedLE_true_iff, changedLE_true_iff, changedLE_true_iff]
  rintro (⟨ha0, hb0⟩ | ⟨hap, hb0⟩ | ⟨hap, hbp, hab⟩)
  · rintro (⟨_, hc0⟩ | ⟨hbp, _⟩ | ⟨hbp, _, _⟩)
    · exact Or.inl ⟨ha0, hc0⟩
    · omega
    · omega
  · rintro (⟨_, hc0⟩ | ⟨hbp, _⟩ | ⟨hbp, _, _⟩)
    · exact Or.inr (Or.inl ⟨hap, hc0⟩)
    · omega
    · omega
  · rintro (⟨hb0, _⟩ | ⟨_, hc0⟩ | ⟨_, hcp, hbc⟩)
    · omega
    · exact Or.inr (Or.inl ⟨hap, hc0⟩)
    · refine Or.inr (Or.inr ⟨hap, hcp, ?_⟩)
      rcases hab with hlt1 | ⟨heq1, hle1⟩ <;> rcases hbc with hlt2 | ⟨heq2, hle2⟩
      · exact Or.inl (lt_trans hlt1 hlt2)
      · exact Or.inl (heq2 ▸ hlt1)
      · exact Or.inl (heq1 ▸ hlt2)
      · exact Or.inr ⟨heq1.trans heq2, le_trans hle2 hle1⟩

/-- Any comparator-ordered pair satisfies the claimed table order. -/
theorem changedLE_good (a b : FileCov) (h : changedLE a b = true) :
    changedGood a b := by
  rw [changedLE_true_iff] at h
  unfold changedGood
  rcases h with ⟨h1, h2⟩ | ⟨h1, h2⟩ | ⟨h1, h2, h3⟩
  · exact ⟨fun _ => h2, fun hpa _ => by omega⟩
  · exact ⟨fun h0 => by omega, fun _ hpb => by omega⟩
  · exact ⟨fun h0 => by omega, fun _ _ => h3⟩

/-- C3: in the rendered changed-files table order, of two measurable
entries the one with lower hit-percentage appears first, percentage
ties put the larger `linesFound` first, every zero-`linesFound` entry
follows all measurable entries, ties among zero-`linesFound` entries
keep their input order (the stable sort leaves their subsequence
exactly as in the input), and the table is a permutation of the input
entries. -/
theorem changed_table_sort_law (files : List FileCov) :
    (sortChangedFiles files).Pairwise changedGood ∧
    (sortChangedFiles files).filter (fun f : FileCov => decide (f.found = 0)) =
      files.filter (fun f : FileCov => decide (f.found = 0)) ∧
    (sortChangedFiles files).Perm files := by
  have htrans : ∀ (a b c : FileCov),
      changedLE a b → changedLE b c → changedLE a c := changedLE_trans
  have htotal : ∀ (a b : FileCov), changedLE a b || changedLE b a := changedLE_total
  refine ⟨?_, ?_, List.mergeSort_perm files changedLE⟩
  · exact (List.sorted_mergeSort htrans htotal files).imp
      (fun h => changedLE_good _ _ h)
  · have hzero : ∀ x ∈ files.filter (fun f : FileCov => decide (f.found = 0)),
        x.found = 0 := by
      intro x hx
      simpa using (List.of_mem_filter hx)
    have hpw : (files.filter (fun f : FileCov => decide (f.found = 0))).Pairwise
        (fun x y => changedLE x y = true) := by
      refine List.pairwise_of_forall_mem_list ?_
      intro x hx y hy
      rw [changedLE_true_iff]
      exact Or.inl ⟨hzero x hx, hzero y hy⟩
    have h1 : List.Sublist (files.filter (fun f : FileCov => decide (f.found = 0)))
        (sortChangedFiles files) :=
      List.sublist_mergeSort htrans htotal hpw (List.filter_sublist files)
    have h2 := h1.filter (fun f : FileCov => decide (f.found = 0))
    rw [List.filter_filter] at h2
    simp only [Bool.and_self] at h2
    have h3 : ((sortChangedFiles files).filter
          (fun f : FileCov => decide (f.found = 0))).length =
        (files.filter (fun f : FileCov => decide (f.found = 0))).length :=
      ((List.mergeSort_perm files changedLE).filter _).length_eq
    exact (h2.eq_of_length h3.symm).symm

/-! ## Comment reconciliation -/

/-- Every member of a list is at most the list's `foldr max 0`. -/
theorem le_foldr_max (l : List Nat) (x : Nat) (h : x ∈ l) :
    x ≤ l.foldr max 0 := by
  induction l with
  | nil => cases h
  | cons a t ih =>
    rcases List.mem_cons.mp h with rfl | hm
    · exact le_max_left _ _
    · exact le_trans (ih hm) (le_max_right _ _)

/-- The id assigned to a created comment collides with no existing id. -/
theorem freshId_not_mem (L : List IssueComment) (c : IssueComment)
    (hc : c ∈ L) : c.id ≠ freshId L := by
  have hle : c.id ≤ (L.map IssueComment.id).foldr max 0 :=
    le_foldr_max _ _ (List.mem_map_of_mem _ hc)
  unfold freshId
  omega

/-- When the (single-page) store has no marker-bearing comment,
`postComment` creates a new comment at the end. -/
theorem postComment_no_marker (L : List IssueComment) (d : String)
    (hnm : ∀ c ∈ L, hasMarker c = false) (hlen : L.length ≤ 100) :
    postComment L d = L ++ [⟨freshId L, d⟩] := by
  unfold postComment
  rw [List.take_of_length_le (by unfold maxFilesPerPage; omega)]
  rw [List.find?_eq_none.mpr (fun x hx => by simp [hnm x hx])]

/-- When the store is `A ++ ex :: B` with `ex` the only marker-bearing
comment (up to ids) and everything on the first page, `postComment`
overwrites exactly `ex`'s body in place. -/
theorem postComment_canonical (A B : List IssueComment) (ex : IssueComment)
    (d : String)
    (hA : ∀ c ∈ A, hasMarker c = false)
    (hmark : hasMarker ex = true)
    (hidA : ∀ c ∈ A, c.id ≠ ex.id) (hidB : ∀ c ∈ B, c.id ≠ ex.id)
    (hlen : (A ++ ex :: B).length ≤ 100) :
    postComment (A ++ ex :: B) d = A ++ ⟨ex.id, d⟩ :: B := by
  unfold postComment
  rw [List.take_of_length_le (by unfold maxFilesPerPage; omega)]
  have hfind : (A ++ ex :: B).find? hasMarker = some ex := by
    rw [List.find?_append, List.find?_eq_none.mpr (fun x hx => by simp [hA x hx]),
      Option.none_or, List.find?_cons_of_pos _ hmark]
  simp only [hfind]
  rw [List.map_append, List.map_cons]
  rw [if_pos rfl]
  rw [List.map_congr_left (fun c hc => if_neg (hidA c hc)),
    List.map_congr_left (fun c hc => if_neg (hidB c hc))]
  simp

/-- A list whose marker-filter is the singleton `[x]` splits around the
occurrence of `x`, with marker-free parts on both sides. -/
theorem filter_marker_decomp (L : List IssueComment) (x : IssueComment)
    (h : L.filter hasMarker = [x]) :
    ∃ A B, L = A ++ x :: B ∧ (∀ c ∈ A, hasMarker c = false) ∧
      (∀ c ∈ B, hasMarker c = false) := by
  induction L with
  | nil => simp at h
  | cons c t ih =>
    by_cases hc : hasMarker c = true
    · rw [List.filter_cons_of_pos hc] at h
      rw [List.cons_eq_cons] at h
      obtain ⟨rfl, h2⟩ := h
      refine ⟨[], t, by simp, by simp, ?_⟩
      intro b hb
      have := List.filter_eq_nil_iff.mp h2 b hb
      simpa using this
    · rw [List.filter_cons_of_neg hc] at h
      obtain ⟨A, B, hL, hA, hB⟩ := ih h
      refine ⟨c :: A, B, by rw [hL]; rfl, ?_, hB⟩
      intro c' hc'
      rcases List.mem_cons.mp hc' with rfl | hm
      · simpa using hc
      · exact hA c' hm

/-- Distinct comment ids: the parts around `ex` carry no comment with
`ex`'s id. -/
theorem nodup_ids_decomp (A B : List IssueComment) (ex : IssueComment)
    (h : ((A ++ ex :: B).map IssueComment.id).Nodup) :
    (∀ c ∈ A, c.id ≠ ex.id) ∧ (∀ c ∈ B, c.id ≠ ex.id) := by
  rw [List.map_append, List.map_cons, List.nodup_append] at h
  obtain ⟨h1, h2, h3⟩ := h
  constructor
  · intro c hc heq
    exact h3 (List.mem_map_of_mem _ hc) (heq ▸ List.mem_cons_self _ _)
  · intro c hc heq
    exact (List.nodup_cons.mp h2).1 (heq ▸ List.mem_map_of_mem _ hc)

/-- C8 counterexample: a comment store that already holds two
marker-bearing comments still holds two after running reconciliation
twice with a marker-bearing document — the claim's "exactly one comment
containing the marker for every comment-store state" fails, because
only the first marker-bearing comment is updated and duplicates are
never removed. -/
theorem reconcile_two_markers_counterexample :
    ((postComment (postComment
        [⟨1, "<!-- lcov-comment --> old1"⟩, ⟨2, "<!-- lcov-comment --> old2"⟩]
        "<!-- lcov-comment --> new") "<!-- lcov-comment --> new").filter
      hasMarker).length = 2 := by decide

/-- C8 amended: for every comment-store state that fits on the first
listed page (at most 99 comments, distinct ids) and holds at most one
marker-bearing comment, running reconciliation twice with
marker-bearing documents leaves exactly one comment containing the
marker, whose body is the latest document; the second run updates in
place (same ids), a comment is created by the first run exactly when no
marker-bearing comment existed, and an existing marker-bearing comment
is updated in place (same ids). -/
theorem reconcile_idempotent (L : List IssueComment) (d1 d2 : String)
    (hnodup : (L.map IssueComment.id).Nodup)
    (hlen : L.length ≤ 99)
    (hone : (L.filter hasMarker).length ≤ 1)
    (hd1 : strIncludes d1 lcovCommentMarker = true)
    (hd2 : strIncludes d2 lcovCommentMarker = true) :
    ((postComment (postComment L d1) d2).filter hasMarker).map IssueComment.body =
      [d2] ∧
    (postComment (postComment L d1) d2).map IssueComment.id =
      (postComment L d1).map IssueComment.id ∧
    ((L.filter hasMarker).length = 0 →
      postComment L d1 = L ++ [⟨freshId L, d1⟩]) ∧
    ((L.filter hasMarker).length = 1 →
      (postComment L d1).map IssueComment.id = L.map IssueComment.id) := by
  rcases Nat.le_one_iff_eq_zero_or_eq_one.mp hone with h0 | h1
  · have hnm : ∀ c ∈ L, hasMarker c = false := by
      intro c hc
      have := List.filter_eq_nil_iff.mp (List.length_eq_zero.mp h0) c hc
      simpa using this
    have hpost1 : postComment L d1 = L ++ [⟨freshId L, d1⟩] :=
      postComment_no_marker L d1 hnm (by omega)
    have hmark1 : hasMarker ⟨freshId L, d1⟩ = true := hd1
    have hpost2 : postComment (L ++ [⟨freshId L, d1⟩]) d2 =
        L ++ [⟨freshId L, d2⟩] := by
      have := postComment_canonical L [] ⟨freshId L, d1⟩ d2 hnm hmark1
        (fun c hc => freshId_not_mem L c hc) (by simp)
        (by simp only [List.length_append, List.length_cons]; simp; omega)
      simpa using this
    rw [hpost1, hpost2]
    refine ⟨?_, by simp, fun _ => rfl, fun hcontra => by omega⟩
    rw [List.filter_append, List.filter_eq_nil_iff.mpr
      (fun c hc => by simp [hnm c hc])]
    simp [hasMarker, hd2]
  · obtain ⟨x, hx⟩ := List.length_eq_one.mp h1
    have hmx : hasMarker x = true :=
      List.of_mem_filter (hx ▸ List.mem_singleton_self x)
    obtain ⟨A, B, hLdecomp, hA, hB⟩ := filter_marker_decomp L x hx
    subst hLdecomp
    obtain ⟨hidA, hidB⟩ := nodup_ids_decomp A B x hnodup
    have hlen' : (A ++ x :: B).length ≤ 100 := by omega
    have hpost1 := postComment_canonical A B x d1 hA hmx hidA hidB hlen'
    have hmark1 : hasMarker ⟨x.id, d1⟩ = true := hd1
    have hlen'' : (A ++ (⟨x.id, d1⟩ : IssueComment) :: B).length ≤ 100 := by
      simp only [List.length_append, List.length_cons] at hlen' ⊢
      omega
    have hpost2 := postComment_canonical A B ⟨x.id, d1⟩ d2 hA hmark1 hidA hidB hlen''
    rw [hpost1, hpost2]
    refine ⟨?_, by simp, fun hcontra => by omega, fun _ => by simp⟩
    have hfB : List.filter hasMarker B = [] :=
      List.filter_eq_nil_iff.mpr (fun c hc => by simp [hB c hc])
    rw [List.filter_append, List.filter_eq_nil_iff.mpr
      (fun c hc => by simp [hA c hc])]
    simp [hasMarker, hd2, hfB]

/-- Witness for the amended C8: a one-comment store with no marker. -/
theorem reconcile_idempotent_witness :
    ([(⟨5, "hello"⟩ : IssueComment)].map IssueComment.id).Nodup ∧
    [(⟨5, "hello"⟩ : IssueComment)].length ≤ 99 ∧
    ([(⟨5, "hello"⟩ : IssueComment)].filter hasMarker).length ≤ 1 ∧
    strIncludes "<!-- lcov-comment --> v1" lcovCommentMarker = true ∧
    strIncludes "<!-- lcov-comment --> v2" lcovCommentMarker = true ∧
    (((postComment (postComment [⟨5, "hello"⟩] "<!-- lcov-comment --> v1")
          "<!-- lcov-comment --> v2").filter hasMarker).map IssueComment.body =
        ["<!-- lcov-comment --> v2"] ∧
      (postComment (postComment [⟨5, "hello"⟩] "<!-- lcov-comment --> v1")
          "<!-- lcov-comment --> v2").map IssueComment.id =
        (postComment [⟨5, "hello"⟩] "<!-- lcov-comment --> v1").map
          IssueComment.id ∧
      (([(⟨5, "hello"⟩ : IssueComment)].filter hasMarker).length = 0 →
        postComment [⟨5, "hello"⟩] "<!-- lcov-comment --> v1" =
          [⟨5, "hello"⟩] ++ [⟨freshId [⟨5, "hello"⟩], "<!-- lcov-comment --> v1"⟩]) ∧
      (([(⟨5, "hello"⟩ : IssueComment)].filter hasMarker).length = 1 →
        (postComment [⟨5, "hello"⟩] "<!-- lcov-comment --> v1").map
          IssueComment.id = [(⟨5, "hello"⟩ : IssueComment)].map IssueComment.id)) :=
  ⟨by decide, by decide, by decide, by decide, by decide,
    reconcile_idempotent [⟨5, "hello"⟩] "<!-- lcov-comment --> v1"
      "<!-- lcov-comment --> v2" (by decide) (by decide) (by decide)
      (by decide) (by decide)⟩

end LcovAction
